import Mathlib

/-!
Shallow embedding of `array_plotter.py`: the instrumented `Array` container
(tracked elements, permutation, counters, labels, append-only history of
snapshots) and the sorting algorithms written against it.  Python semantics
that matter here are modelled explicitly: negative list indices wrap around,
`functools.total_ordering` derives `>` from `<` and `==` (so a failed
less-than triggers an additional equality comparison), exceptions abort a run
keeping the state reached so far, and Python-3 true division produces a float
(modelled by `PyNum`), which is rejected as a list index.
-/

namespace ArrayPlotter

/-- Tracked element: payload `element` and stable identity `index`
(the element's original position), as in `ArrayElement.__init__`. -/
structure ArrayElement where
  element : Int
  index : Nat
  deriving DecidableEq, Repr

/-- The `action` tag stored in a snapshot dictionary by `Array.summary`. -/
inductive Action where
  | none
  | access (key : Int)
  | insert (key : Int) (value : ArrayElement)
  | swap (index1 index2 : Int)
  | compare (index1 index2 : Option Nat)
  deriving DecidableEq, Repr

/-- One entry of `Array.history`, as built by `Array.summary` (the wall-clock
`time` field is not modelled). -/
structure Snapshot where
  array : List ArrayElement
  accesses : Nat
  comparisons : Nat
  swaps : Nat
  labels : Option (List (Option String))
  action : Action
  permutation : List Nat
  deriving DecidableEq, Repr

/-- The mutable state of the Python `Array` object. -/
structure ArrayState where
  array : List ArrayElement
  permutation : List Nat
  accesses : Nat
  comparisons : Nat
  swaps : Nat
  labels : Option (List (Option String))
  verbose : Bool
  history : List Snapshot
  deriving DecidableEq, Repr

/-- `Array.summary`: capture the current state together with an action tag. -/
def summary (s : ArrayState) (action : Action) : Snapshot :=
  { array := s.array
    accesses := s.accesses
    comparisons := s.comparisons
    swaps := s.swaps
    labels := s.labels
    action := action
    permutation := s.permutation }

/-- `self.history.append(self.summary(action))`. -/
def pushSnap (s : ArrayState) (action : Action) : ArrayState :=
  { s with history := s.history ++ [summary s action] }

/-- `Array.__init__`: wrap each value in an `ArrayElement` carrying its
original position, set `permutation = range(n)`, zero the counters and record
the initial snapshot. -/
def mkArray (vals : List Int) (labels : Option (List (Option String)))
    (verbose : Bool) : ArrayState :=
  let s0 : ArrayState :=
    { array := vals.enum.map (fun p => { element := p.2, index := p.1 })
      permutation := List.range vals.length
      accesses := 0
      comparisons := 0
      swaps := 0
      labels := labels
      verbose := verbose
      history := [] }
  { s0 with history := [summary s0 Action.none] }

/-- `Array.__getitem__`: Python list indexing, so negative keys in `[-n, -1]`
wrap around; a key outside `[-n, n)` raises (modelled as `none`) before any
side effect.  On success the access counter is bumped and, in verbose mode
only, an `access` snapshot is appended. -/
def getitem (s : ArrayState) (key : Int) : Option ArrayElement × ArrayState :=
  let idx : Int := if key < 0 then (s.array.length : Int) + key else key
  if h : 0 ≤ idx ∧ idx < (s.array.length : Int) then
    let out := s.array.get ⟨idx.toNat, by omega⟩
    let s1 := { s with accesses := s.accesses + 1 }
    (some out, if s1.verbose then pushSnap s1 (Action.access key) else s1)
  else
    (none, s)

/-- `Array.__setitem__`: explicit bounds check `key < 0 or key >= n` (no
wrap-around), then store, recompute the permutation from the current element
identities, and always append an `insert` snapshot. -/
def setitem (s : ArrayState) (key : Int) (value : ArrayElement) :
    Option Unit × ArrayState :=
  if key < 0 ∨ (s.array.length : Int) ≤ key then
    (none, s)
  else
    let arr := s.array.set key.toNat value
    let s1 := { s with array := arr, permutation := arr.map ArrayElement.index }
    (some (), pushSnap s1 (Action.insert key value))

/-- `Array.swap`: the non-silent path performs the exchange through paired
`__getitem__`/`__setitem__` calls (Python evaluates `self[index2]` then
`self[index1]`, then assigns to `index1` and `index2` in that order), so a
failure may leave partial effects behind; the silent path exchanges the raw
list slots (wrap-around indexing, no counters, no permutation update).  On
success the swap counter is bumped and a `swap` snapshot appended. -/
def swap (s : ArrayState) (index1 index2 : Int) (silent : Bool) :
    Option Unit × ArrayState :=
  if silent then
    let n : Int := s.array.length
    let i : Int := if index1 < 0 then n + index1 else index1
    let j : Int := if index2 < 0 then n + index2 else index2
    if h : (0 ≤ j ∧ j < n) ∧ (0 ≤ i ∧ i < n) then
      let vj := s.array.get ⟨j.toNat, by omega⟩
      let vi := s.array.get ⟨i.toNat, by omega⟩
      let arr := (s.array.set i.toNat vj).set j.toNat vi
      let s1 := { s with array := arr, swaps := s.swaps + 1 }
      (some (), pushSnap s1 (Action.swap index1 index2))
    else
      (none, s)
  else
    match getitem s index2 with
    | (none, s1) => (none, s1)
    | (some vj, s1) =>
      match getitem s1 index1 with
      | (none, s2) => (none, s2)
      | (some vi, s2) =>
        match setitem s2 index1 vj with
        | (none, s3) => (none, s3)
        | (some _, s3) =>
          match setitem s3 index2 vi with
          | (none, s4) => (none, s4)
          | (some _, s4) =>
            let s5 := { s4 with swaps := s4.swaps + 1 }
            (some (), pushSnap s5 (Action.swap index1 index2))

/-- `Array.compare`: bump the comparison counter, resolve each operand's
current position by scanning for a matching identity (first hit, `None` when
absent) and append a `compare` snapshot. -/
def compare (s : ArrayState) (elem1 elem2 : ArrayElement) : ArrayState :=
  let s1 := { s with comparisons := s.comparisons + 1 }
  let index1 := s1.array.findIdx? (fun el => el.index == elem1.index)
  let index2 := s1.array.findIdx? (fun el => el.index == elem2.index)
  pushSnap s1 (Action.compare index1 index2)

/-- `ArrayElement.__lt__`: report to `compare`, then the payload order. -/
def ltB (s : ArrayState) (e1 e2 : ArrayElement) : Bool × ArrayState :=
  (decide (e1.element < e2.element), compare s e1 e2)

/-- `ArrayElement.__eq__`: report to `compare`, then payload equality. -/
def eqB (s : ArrayState) (e1 e2 : ArrayElement) : Bool × ArrayState :=
  (e1.element == e2.element, compare s e1 e2)

/-- `a > b` as derived by `functools.total_ordering` from `__lt__`:
`not (a < b) and a != b`, where `!=` is the negation of `__eq__` and is only
evaluated when the less-than test returned false. -/
def gtB (s : ArrayState) (e1 e2 : ArrayElement) : Bool × ArrayState :=
  let (l, s1) := ltB s e1 e2
  if l then (false, s1)
  else
    let (q, s2) := eqB s1 e1 e2
    (!q, s2)

/-- `a >= b` as derived by `functools.total_ordering`: `not (a < b)`. -/
def geB (s : ArrayState) (e1 e2 : ArrayElement) : Bool × ArrayState :=
  let (l, s1) := ltB s e1 e2
  (!l, s1)

/-- Terminal color painted by `Array.finish`. -/
def finishColor : String := "lime"

/-- One iteration of the `Array.finish` loop: after iteration `i` the label
list marks positions `0..i` and a snapshot (default action) is appended. -/
def finishStep (n : Nat) (s : ArrayState) (i : Nat) : ArrayState :=
  let labs := (List.range n).map (fun k => if k ≤ i then some finishColor else none)
  pushSnap { s with labels := some labs } Action.none

/-- `Array.finish`: paint the positions one at a time, one snapshot each. -/
def finish (s : ArrayState) : ArrayState :=
  (List.range s.array.length).foldl (finishStep s.array.length) s

/-- Algorithm-level read: a raised exception (`none`) propagates out of the
algorithm, as in `selection_sort` etc., which catch nothing. -/
def getE (s : ArrayState) (key : Int) : Option (ArrayElement × ArrayState) :=
  match getitem s key with
  | (some e, s1) => some (e, s1)
  | (none, _) => none

/-- Algorithm-level (non-silent) swap; an exception propagates out. -/
def swapE (s : ArrayState) (index1 index2 : Int) : Option ArrayState :=
  match swap s index1 index2 false with
  | (some _, s1) => some s1
  | (none, _) => none

/-- Algorithm-level write; an exception propagates out. -/
def setE (s : ArrayState) (key : Int) (value : ArrayElement) :
    Option ArrayState :=
  match setitem s key value with
  | (some _, s1) => some s1
  | (none, _) => none

/-- Inner loop of `selection_sort`, with `rem = n - j` remaining iterations:
`for j in range(j, n): if arr[min_id] > arr[j]: min_id = j`. -/
def selScan : ArrayState → Nat → Nat → Nat → Option (Nat × ArrayState)
  | s, minId, _, 0 => some (minId, s)
  | s, minId, j, rem + 1 =>
    match getE s (minId : Int) with
    | none => none
    | some (e1, s1) =>
      match getE s1 (j : Int) with
      | none => none
      | some (e2, s2) =>
        let (b, s3) := gtB s2 e1 e2
        selScan s3 (if b then j else minId) (j + 1) rem

/-- Outer loop of `selection_sort`, `rem = n - i` remaining iterations: scan
for the minimum of the suffix, then `arr.swap(i, min_id)` unconditionally
(even when `min_id == i`). -/
def selOuter : ArrayState → Nat → Nat → Nat → Option ArrayState
  | s, _, _, 0 => some s
  | s, i, n, rem + 1 =>
    match selScan s i (i + 1) (n - (i + 1)) with
    | none => none
    | some (minId, s1) =>
      match swapE s1 (i : Int) (minId : Int) with
      | none => none
      | some s2 => selOuter s2 (i + 1) n rem

/-- `selection_sort` (without the optional `finish` sweep). -/
def selection_sort (s : ArrayState) : Option ArrayState :=
  selOuter s 0 s.array.length s.array.length

/-- Inner loop of `bubble_sort`, `rem = stop - j` remaining iterations:
`for j in range(stop): if arr[j] > arr[j+1]: arr.swap(j, j+1)`. -/
def bubInner : ArrayState → Nat → Nat → Option ArrayState
  | s, _, 0 => some s
  | s, j, rem + 1 =>
    match getE s (j : Int) with
    | none => none
    | some (e1, s1) =>
      match getE s1 ((j : Int) + 1) with
      | none => none
      | some (e2, s2) =>
        let (b, s3) := gtB s2 e1 e2
        if b then
          match swapE s3 (j : Int) ((j : Int) + 1) with
          | none => none
          | some s4 => bubInner s4 (j + 1) rem
        else
          bubInner s3 (j + 1) rem

/-- Outer loop of `bubble_sort`, `rem = n - i` remaining iterations:
`for i in range(n)` over inner passes of length `n - i - 1`. -/
def bubOuter : ArrayState → Nat → Nat → Nat → Option ArrayState
  | s, _, _, 0 => some s
  | s, i, n, rem + 1 =>
    match bubInner s 0 (n - i - 1) with
    | none => none
    | some s1 => bubOuter s1 (i + 1) n rem

/-- `bubble_sort` (without the optional `finish` sweep). -/
def bubble_sort (s : ArrayState) : Option ArrayState :=
  bubOuter s 0 s.array.length s.array.length

/-- A Python number as manipulated by `stooge_sort`: an `int`, or the `float`
produced by true division `/` (exact here, since all inputs are rationals). -/
inductive PyNum where
  | int (i : Int)
  | float (q : ℚ)
  deriving DecidableEq, Repr

/-- Numeric value of a `PyNum`. -/
def PyNum.toRat : PyNum → ℚ
  | PyNum.int i => (i : ℚ)
  | PyNum.float q => q

/-- Python `-` : int with int stays int, otherwise float. -/
def pySub : PyNum → PyNum → PyNum
  | PyNum.int a, PyNum.int b => PyNum.int (a - b)
  | a, b => PyNum.float (a.toRat - b.toRat)

/-- Python `+` : int with int stays int, otherwise float. -/
def pyAdd : PyNum → PyNum → PyNum
  | PyNum.int a, PyNum.int b => PyNum.int (a + b)
  | a, b => PyNum.float (a.toRat + b.toRat)

/-- Python-3 true division `/`: always a float. -/
def pyDiv (a b : PyNum) : PyNum := PyNum.float (a.toRat / b.toRat)

/-- Python `>` against an int literal. -/
def pyGtInt (a : PyNum) (b : Int) : Bool := decide ((b : ℚ) < a.toRat)

/-- `__getitem__` with a `PyNum` key: a float key raises a `TypeError` inside
the `try`, which `__getitem__` converts to the invalid-index `ValueError`
before any side effect. -/
def getPy (s : ArrayState) (key : PyNum) : Option (ArrayElement × ArrayState) :=
  match key with
  | PyNum.int i => getE s i
  | PyNum.float _ => none

/-- `Array.swap` with `PyNum` operands: a float operand makes the first inner
read raise, which `swap` converts to the invalid-index error with no state
change. -/
def swapPy (s : ArrayState) (index1 index2 : PyNum) : Option ArrayState :=
  match index1, index2 with
  | PyNum.int i, PyNum.int j => swapE s i j
  | _, _ => none

/-- Result of a fuelled `stooge_sort` run. -/
inductive StoogeRes where
  | done (s : ArrayState)
  | indexError
  | outOfFuel
  deriving Repr

/-- Body of `stooge_sort_(arr, i, j)`, faithful to the Python-3 semantics of
`t = (j-i+1)/3` being a float that is then used as an index. -/
def stoogeAux : Nat → ArrayState → PyNum → PyNum → StoogeRes
  | 0, _, _, _ => StoogeRes.outOfFuel
  | fuel + 1, s, i, j =>
    match getPy s i with
    | none => StoogeRes.indexError
    | some (e1, s1) =>
      match getPy s1 j with
      | none => StoogeRes.indexError
      | some (e2, s2) =>
        let (b, s3) := gtB s2 e1 e2
        match (if b then swapPy s3 i j else some s3) with
        | none => StoogeRes.indexError
        | some s4 =>
          if pyGtInt (pyAdd (pySub j i) (PyNum.int 1)) 2 then
            let t := pyDiv (pyAdd (pySub j i) (PyNum.int 1)) (PyNum.int 3)
            match stoogeAux fuel s4 i (pySub j t) with
            | StoogeRes.done s5 =>
              match stoogeAux fuel s5 (pyAdd i t) j with
              | StoogeRes.done s6 => stoogeAux fuel s6 i (pySub j t)
              | r => r
            | r => r
          else
            StoogeRes.done s4

/-- `stooge_sort`: `stooge_sort_(arr, 0, len(arr)-1)` with recursion fuel. -/
def stooge_sort (fuel : Nat) (s : ArrayState) : StoogeRes :=
  stoogeAux fuel s (PyNum.int 0) (PyNum.int ((s.array.length : Int) - 1))

/-- The container's client-visible operations, used to quantify over runs. -/
inductive Op where
  | get (key : Int)
  | set (key : Int) (value : ArrayElement)
  | swapOp (index1 index2 : Int) (silent : Bool)
  | compareOp (e1 e2 : ArrayElement)
  | finishOp
  | setLabels (labs : Option (List (Option String)))
  deriving DecidableEq, Repr

/-- Apply one operation; `none` in the first component models a raised
exception, with the state reached when it was raised. -/
def stepOp (o : Op) (s : ArrayState) : Option Unit × ArrayState :=
  match o with
  | Op.get k => let (r, s1) := getitem s k; (r.map (fun _ => ()), s1)
  | Op.set k v => setitem s k v
  | Op.swapOp i j sil => swap s i j sil
  | Op.compareOp e1 e2 => (some (), compare s e1 e2)
  | Op.finishOp => (some (), finish s)
  | Op.setLabels l => (some (), { s with labels := l })

/-- Run a straight-line client script; an exception aborts the run, keeping
the state reached at that point (Python propagates it to the caller). -/
def run (ops : List Op) (s : ArrayState) : ArrayState :=
  match ops with
  | [] => s
  | o :: os =>
    match stepOp o s with
    | (some _, s1) => run os s1
    | (none, s1) => s1

/-- `l` is a bijection of `0..n-1`: length `n` and each of `0..n-1` occurs
exactly once. -/
def isBijOfRange (l : List Nat) (n : Nat) : Bool :=
  l.length == n && (List.range n).all (fun k => l.count k == 1)

/-- The per-snapshot permutation invariant asserted by the spec: the recorded
permutation is a bijection of `0..n-1` and matches the identity of the
element recorded at each position. -/
def snapPermOk (sn : Snapshot) : Bool :=
  isBijOfRange sn.permutation sn.array.length &&
  sn.permutation == sn.array.map ArrayElement.index

/-- Sorted payloads of a finished stooge run, if it finished. -/
def stoogeValues : StoogeRes → Option (List Int)
  | StoogeRes.done s => some (s.array.map ArrayElement.element)
  | _ => none

/-! ## Helper lemmas -/

theorem pres_foldl {α : Type} {β : Type} (P : α → Prop) (f : α → β → α)
    (h : ∀ a b, P a → P (f a b)) :
    ∀ (l : List β) (a : α), P a → P (l.foldl f a) := by
  intro l
  induction l with
  | nil => intro a ha; exact ha
  | cons b t ih => intro a ha; exact ih (f a b) (h a b ha)

/-- `t`'s history extends `s`'s: every prior snapshot is preserved in place. -/
def HExt (s t : ArrayState) : Prop := ∃ u, t.history = s.history ++ u

theorem hext_refl (s : ArrayState) : HExt s s := ⟨[], by simp⟩

theorem hext_trans {s t u : ArrayState} (h1 : HExt s t) (h2 : HExt t u) :
    HExt s u := by
  obtain ⟨a, ha⟩ := h1
  obtain ⟨b, hb⟩ := h2
  exact ⟨a ++ b, by rw [hb, ha, List.append_assoc]⟩

theorem hext_of_eq {s t : ArrayState} (h : t.history = s.history) :
    HExt s t := ⟨[], by simp [h]⟩

theorem hext_pushSnap (s : ArrayState) (a : Action) : HExt s (pushSnap s a) :=
  ⟨[summary s a], rfl⟩

theorem hext_getitem (s : ArrayState) (k : Int) : HExt s (getitem s k).2 := by
  by_cases hv : s.verbose = true <;>
    simp only [getitem, hv, if_true, ite_true, Bool.false_eq_true, if_false,
      ite_false] <;>
    (repeat' split) <;>
    first
      | exact ⟨[summary _ _], rfl⟩
      | exact ⟨[], (List.append_nil _).symm⟩

theorem hext_setitem (s : ArrayState) (k : Int) (v : ArrayElement) :
    HExt s (setitem s k v).2 := by
  simp only [setitem]
  (repeat' split) <;>
    first
      | exact ⟨[summary _ _], rfl⟩
      | exact ⟨[], (List.append_nil _).symm⟩

theorem hext_compare (s : ArrayState) (e1 e2 : ArrayElement) :
    HExt s (compare s e1 e2) :=
  ⟨[summary _ _], rfl⟩

theorem hext_swap (s : ArrayState) (i j : Int) (sil : Bool) :
    HExt s (swap s i j sil).2 := by
  simp only [swap]
  split
  · (repeat' split) <;>
      first
        | exact ⟨[summary _ _], rfl⟩
        | exact ⟨[], (List.append_nil _).symm⟩
  · rcases h2 : getitem s j with ⟨o2, s1⟩
    have e1 : HExt s s1 := by
      have := hext_getitem s j; rwa [h2] at this
    rcases o2 with _ | vj
    · exact e1
    · dsimp only
      rcases h3 : getitem s1 i with ⟨o3, s2⟩
      have e2 : HExt s s2 := by
        have := hext_getitem s1 i; rw [h3] at this; exact hext_trans e1 this
      rcases o3 with _ | vi
      · exact e2
      · dsimp only
        rcases h4 : setitem s2 i vj with ⟨o4, s3⟩
        have e3 : HExt s s3 := by
          have := hext_setitem s2 i vj; rw [h4] at this; exact hext_trans e2 this
        rcases o4 with _ | u4
        · exact e3
        · dsimp only
          rcases h5 : setitem s3 j vi with ⟨o5, s4⟩
          have e4 : HExt s s4 := by
            have := hext_setitem s3 j vi; rw [h5] at this
            exact hext_trans e3 this
          rcases o5 with _ | u5
          · exact e4
          · refine hext_trans e4 ⟨[summary _ _], rfl⟩

theorem hext_finish (s : ArrayState) : HExt s (finish s) := by
  have step : ∀ (t : ArrayState) (i : Nat),
      HExt s t → HExt s (finishStep s.array.length t i) := by
    intro t i ht
    exact hext_trans ht (hext_pushSnap _ _)
  exact pres_foldl (HExt s) (finishStep s.array.length) step
    (List.range s.array.length) s (hext_refl s)

theorem hext_stepOp (o : Op) (s : ArrayState) : HExt s (stepOp o s).2 := by
  cases o with
  | get k =>
    rcases h : getitem s k with ⟨o1, s1⟩
    have := hext_getitem s k
    rw [h] at this
    simpa [stepOp, h] using this
  | set k v => exact hext_setitem s k v
  | swapOp i j sil => exact hext_swap s i j sil
  | compareOp e1 e2 => exact hext_compare s e1 e2
  | finishOp => exact hext_finish s
  | setLabels l => exact hext_of_eq rfl

theorem hext_run (ops : List Op) (s : ArrayState) : HExt s (run ops s) := by
  induction ops generalizing s with
  | nil => exact hext_refl s
  | cons o os ih =>
    rcases h : stepOp o s with ⟨r, s1⟩
    have h1 : HExt s s1 := by have := hext_stepOp o s; rwa [h] at this
    rcases r with _ | u
    · simpa [run, h] using h1
    · have h2 := ih s1
      simpa [run, h] using hext_trans h1 h2

theorem getitem_nv (s : ArrayState) (k : Int) (hv : s.verbose = false) :
    (getitem s k).2.history = s.history ∧ (getitem s k).2.verbose = false := by
  simp only [getitem, hv, if_true, ite_true, Bool.false_eq_true, if_false,
    ite_false]
  (repeat' split) <;> refine ⟨rfl, ?_⟩ <;> first | rfl | exact hv

theorem run_gets_history (ps : List Int) :
    ∀ s : ArrayState, s.verbose = false →
      (run (ps.map Op.get) s).history = s.history := by
  induction ps with
  | nil => intro s _; rfl
  | cons p ps ih =>
    intro s hv
    have hg := getitem_nv s p hv
    rcases h : getitem s p with ⟨r, s1⟩
    rw [h] at hg
    rcases r with _ | e
    · have hs : stepOp (Op.get p) s = (none, s1) := by
        simp [stepOp, h]
      simp only [List.map_cons, run, hs]
      exact hg.1
    · have hs : stepOp (Op.get p) s = (some (), s1) := by
        simp [stepOp, h]
      simp only [List.map_cons, run, hs]
      exact (ih s1 hg.2).trans hg.1

theorem set_self_of_getElem {α : Type} (l : List α) (i : Nat) (v : α)
    (h : l[i]? = some v) : l.set i v = l := by
  obtain ⟨hlt, hv⟩ := List.getElem?_eq_some.1 h
  refine List.ext_getElem (by simp) ?_
  intro k h1 h2
  rw [List.getElem_set]
  split
  · next hik => subst hik; exact hv.symm
  · rfl

theorem pushSnap_array (s : ArrayState) (a : Action) :
    (pushSnap s a).array = s.array := rfl

theorem pushSnap_verbose (s : ArrayState) (a : Action) :
    (pushSnap s a).verbose = s.verbose := rfl

theorem pushSnap_accesses (s : ArrayState) (a : Action) :
    (pushSnap s a).accesses = s.accesses := rfl

theorem getitem_valid (s : ArrayState) (k : Nat) (v : ArrayElement)
    (hv : s.array[k]? = some v) :
    getitem s (k : Int) =
      (some v,
        if s.verbose = true then
          pushSnap { s with accesses := s.accesses + 1 }
            (Action.access (k : Int))
        else { s with accesses := s.accesses + 1 }) := by
  obtain ⟨hk, hkv⟩ := List.getElem?_eq_some.1 hv
  simp only [getitem]
  have hneg : ¬ ((k : Int) < 0) := by omega
  simp only [if_neg hneg]
  rw [dif_pos (show 0 ≤ (k : Int) ∧ (k : Int) < (s.array.length : Int) from
    ⟨by omega, by omega⟩)]
  simp only [Int.toNat_natCast, List.get_eq_getElem, hkv]

theorem setitem_valid (s : ArrayState) (k : Nat) (v : ArrayElement)
    (hk : k < s.array.length) :
    setitem s (k : Int) v =
      (some (),
        pushSnap
          { s with array := s.array.set k v,
                   permutation := (s.array.set k v).map ArrayElement.index }
          (Action.insert (k : Int) v)) := by
  simp only [setitem]
  rw [if_neg (show ¬ ((k : Int) < 0 ∨ (s.array.length : Int) ≤ (k : Int)) from
    by omega)]
  simp only [Int.toNat_natCast]

theorem swap_valid (s : ArrayState) (i j : Nat) (vi vj : ArrayElement)
    (hvj : s.array[j]? = some vj) (hvi : s.array[i]? = some vi) :
    swap s (i : Int) (j : Int) false =
      (some (),
        { array := (s.array.set i vj).set j vi
          permutation := ((s.array.set i vj).set j vi).map ArrayElement.index
          accesses := s.accesses + 2
          comparisons := s.comparisons
          swaps := s.swaps + 1
          labels := s.labels
          verbose := s.verbose
          history := s.history ++
            (if s.verbose = true then
              [summary { s with accesses := s.accesses + 1 }
                 (Action.access (j : Int)),
               summary { s with accesses := s.accesses + 2 }
                 (Action.access (i : Int))]
             else []) ++
            [{ array := s.array.set i vj
               accesses := s.accesses + 2
               comparisons := s.comparisons
               swaps := s.swaps
               labels := s.labels
               action := Action.insert (i : Int) vj
               permutation := (s.array.set i vj).map ArrayElement.index },
             { array := (s.array.set i vj).set j vi
               accesses := s.accesses + 2
               comparisons := s.comparisons
               swaps := s.swaps
               labels := s.labels
               action := Action.insert (j : Int) vi
               permutation := ((s.array.set i vj).set j vi).map ArrayElement.index },
             { array := (s.array.set i vj).set j vi
               accesses := s.accesses + 2
               comparisons := s.comparisons
               swaps := s.swaps + 1
               labels := s.labels
               action := Action.swap (i : Int) (j : Int)
               permutation := ((s.array.set i vj).set j vi).map ArrayElement.index }] }) := by
  have hj : j < s.array.length := (List.getElem?_eq_some.1 hvj).1
  have hi : i < s.array.length := (List.getElem?_eq_some.1 hvi).1
  simp only [swap, Bool.false_eq_true, if_false, ite_false]
  by_cases hverb : s.verbose = true
  · have h2 := getitem_valid s j vj hvj
    rw [if_pos hverb] at h2
    rw [h2]
    try dsimp only
    set T1 := pushSnap { s with accesses := s.accesses + 1 }
      (Action.access (j : Int)) with hT1
    have h3 := getitem_valid T1 i vi hvi
    rw [if_pos (show T1.verbose = true from hverb)] at h3
    rw [h3]
    try dsimp only
    set T2 := pushSnap { T1 with accesses := T1.accesses + 1 }
      (Action.access (i : Int)) with hT2
    have h4 := setitem_valid T2 i vj (show i < T2.array.length from hi)
    rw [h4]
    try dsimp only
    set T3 := pushSnap
      { T2 with array := T2.array.set i vj,
                permutation := (T2.array.set i vj).map ArrayElement.index }
      (Action.insert (i : Int) vj) with hT3
    have hlen3 : T3.array.length = s.array.length := by
      show (T2.array.set i vj).length = s.array.length
      rw [List.length_set, hT2, hT1]
      try simp [pushSnap]
    have h5 := setitem_valid T3 j vi (by omega)
    rw [h5]
    try dsimp only
    simp [hT1, hT2, hT3, pushSnap, summary, hverb, List.append_assoc]
  · have h2 := getitem_valid s j vj hvj
    rw [if_neg hverb] at h2
    rw [h2]
    try dsimp only
    set T1 := { s with accesses := s.accesses + 1 } with hT1
    have h3 := getitem_valid T1 i vi hvi
    rw [if_neg (show ¬ T1.verbose = true from hverb)] at h3
    rw [h3]
    try dsimp only
    set T2 := { T1 with accesses := T1.accesses + 1 } with hT2
    have h4 := setitem_valid T2 i vj (show i < T2.array.length from hi)
    rw [h4]
    try dsimp only
    set T3 := pushSnap
      { T2 with array := T2.array.set i vj,
                permutation := (T2.array.set i vj).map ArrayElement.index }
      (Action.insert (i : Int) vj) with hT3
    have hlen3 : T3.array.length = s.array.length := by
      show (T2.array.set i vj).length = s.array.length
      rw [List.length_set, hT2, hT1]
      try simp [pushSnap]
    have h5 := setitem_valid T3 j vi (by omega)
    rw [h5]
    try dsimp only
    simp [hT1, hT2, hT3, pushSnap, summary, hverb, List.append_assoc]

theorem swap_silent_valid (s : ArrayState) (i j : Nat) (vi vj : ArrayElement)
    (hvj : s.array[j]? = some vj) (hvi : s.array[i]? = some vi) :
    swap s (i : Int) (j : Int) true =
      (some (),
        pushSnap
          { s with array := (s.array.set i vj).set j vi,
                   swaps := s.swaps + 1 }
          (Action.swap (i : Int) (j : Int))) := by
  obtain ⟨hj, hgj⟩ := List.getElem?_eq_some.1 hvj
  obtain ⟨hi, hgi⟩ := List.getElem?_eq_some.1 hvi
  have hnegi : ¬ ((i : Int) < 0) := by omega
  have hnegj : ¬ ((j : Int) < 0) := by omega
  simp only [swap, if_true, ite_true, if_neg hnegi, if_neg hnegj]
  rw [dif_pos (show (0 ≤ (j : Int) ∧ (j : Int) < (s.array.length : Int)) ∧
      0 ≤ (i : Int) ∧ (i : Int) < (s.array.length : Int) from
    ⟨⟨by omega, by omega⟩, by omega, by omega⟩)]
  simp only [Int.toNat_natCast, List.get_eq_getElem, hgj, hgi]

theorem cons_set_perm {α : Type} (x : α) (xs : List α) (j : Nat) (v : α)
    (h : xs[j]? = some v) : List.Perm (v :: xs.set j x) (x :: xs) := by
  induction xs generalizing j with
  | nil => simp at h
  | cons y t ih =>
    cases j with
    | zero =>
      simp only [List.getElem?_cons_zero, Option.some.injEq] at h
      subst h
      exact List.Perm.swap x y t
    | succ k =>
      simp only [List.getElem?_cons_succ] at h
      exact ((List.Perm.swap y v (t.set k x)).trans
        ((ih k h).cons y)).trans (List.Perm.swap x y t)

theorem set_set_swap_perm {α : Type} (a : List α) (i j : Nat) (vi vj : α)
    (hvj : a[j]? = some vj) (hvi : a[i]? = some vi) :
    List.Perm ((a.set i vj).set j vi) a := by
  induction a generalizing i j with
  | nil => simp at hvj
  | cons x t ih =>
    cases i with
    | zero =>
      simp only [List.getElem?_cons_zero, Option.some.injEq] at hvi
      subst hvi
      cases j with
      | zero =>
        simp only [List.getElem?_cons_zero, Option.some.injEq] at hvj
        subst hvj
        simp
      | succ k =>
        simp only [List.getElem?_cons_succ] at hvj
        exact cons_set_perm x t k vj hvj
    | succ m =>
      cases j with
      | zero =>
        simp only [List.getElem?_cons_zero, Option.some.injEq] at hvj
        subst hvj
        simp only [List.getElem?_cons_succ] at hvi
        exact cons_set_perm x t m vi hvi
      | succ k =>
        simp only [List.getElem?_cons_succ] at hvj hvi
        exact (ih m k hvj hvi).cons x

theorem swap_fields (s : ArrayState) (i j : Nat) (vi vj : ArrayElement)
    (hvj : s.array[j]? = some vj) (hvi : s.array[i]? = some vi) :
    (swap s (i : Int) (j : Int) false).1 = some () ∧
    (swap s (i : Int) (j : Int) false).2.array
        = (s.array.set i vj).set j vi ∧
    (swap s (i : Int) (j : Int) false).2.swaps = s.swaps + 1 ∧
    (swap s (i : Int) (j : Int) false).2.permutation
        = ((s.array.set i vj).set j vi).map ArrayElement.index := by
  rw [swap_valid s i j vi vj hvj hvi]
  exact ⟨rfl, rfl, rfl, rfl⟩

/-! ## Claim theorems -/

/-- C7: snapshots already in the trace are unaffected by any subsequent
sequence of get/set/swap/compare/finish/label operations: the old trace is
preserved verbatim as a prefix of the new one (every recorded field of every
prior snapshot, values, permutation, labels, counters and action included,
stays exactly as it was at capture time). -/
theorem c7_snapshots_unaffected_by_later_ops (s : ArrayState) (ops : List Op) :
    (run ops s).history.take s.history.length = s.history := by
  obtain ⟨u, hu⟩ := hext_run ops s
  rw [hu]
  exact List.take_left _ _

/-- C10: a container constructed with `verbose = false` on which only valid
`get` calls are performed keeps a trace of length 1, containing only the
snapshot appended at construction. -/
theorem c10_nonverbose_gets_leave_trace_alone (vals : List Int)
    (ps : List Int) (hvalid : ∀ p ∈ ps, 0 ≤ p ∧ p < (vals.length : Int)) :
    (run (ps.map Op.get) (mkArray vals none false)).history
        = (mkArray vals none false).history ∧
    (mkArray vals none false).history.length = 1 :=
  ⟨run_gets_history ps _ rfl, rfl⟩

/-- C10 witness: three valid reads on a two-element non-verbose container. -/
theorem c10_witness :
    (run ([(0 : Int), 1, 0].map Op.get) (mkArray [4, 5] none false)).history
        = (mkArray [4, 5] none false).history ∧
    (mkArray [4, 5] none false).history.length = 1 :=
  c10_nonverbose_gets_leave_trace_alone [4, 5] [0, 1, 0] (by decide)

/-- C1 (code bug): `stooge_sort` on the 3-element input `[1, 2, 3]` raises the
invalid-index `ValueError` instead of terminating: `t = (j-i+1)/3` is a float
under Python-3 true division and is then used as a list index.  The same
model does sort the 2-element input `[2, 1]` (the recursive case is never
reached there), showing the failure is the float index, not lack of fuel. -/
theorem c1_stooge_sort_crashes :
    stooge_sort 10 (mkArray [1, 2, 3] none false) = StoogeRes.indexError ∧
    stoogeValues (stooge_sort 10 (mkArray [2, 1] none false)) = some [1, 2] := by
  constructor <;> rfl

/-- C2 (counterexample): a single non-silent `swap(0, 1)` on the container
built from `[10, 20]` records an intermediate write snapshot whose
permutation is `[1, 1]` — not a bijection of `0..n-1` — because the element
moving in occupies both positions between the two internal writes; moreover a
silent swap leaves the container's permutation stale (it is never
recomputed), so it no longer matches the current identities. -/
theorem c2_permutation_not_always_bijective :
    ((swap (mkArray [10, 20] none false) 0 1 false).2.history.all snapPermOk
        = false) ∧
    ((swap (mkArray [10, 20] none false) 0 1 false).2.history.map
        Snapshot.permutation = [[0, 1], [1, 1], [1, 0], [1, 0]]) ∧
    (let r := (swap (mkArray [10, 20] none false) 0 1 true).2
     r.permutation = [0, 1] ∧ r.array.map ArrayElement.index = [1, 0]) := by
  refine ⟨by rfl, by rfl, by rfl, by rfl⟩

/-- C3 (counterexample): selection sort on `[3, 1, 2]` performs 3 swaps, not
the claimed 2 — the algorithm calls `arr.swap(i, min_id)` unconditionally on
every outer iteration, including the final self-swap `swap(2, 2)`. -/
theorem c3_swap_count_differs :
    (selection_sort (mkArray [3, 1, 2] none false)).map ArrayState.swaps
      ≠ some 2 := by
  decide

/-- C3 (amended): selection sort on `[3, 1, 2]` yields final values
`[1, 2, 3]`, a swaps counter of 3 (one unconditional swap per outer
iteration, including the self-swap), and a comparisons counter of 5 (each
`>` whose underlying less-than test fails also invokes the equality hook,
since `functools.total_ordering` derives `a > b` as
`not (a < b) and a != b`). -/
theorem c3_selection_sort_on_3_1_2 :
    (selection_sort (mkArray [3, 1, 2] none false)).map
        (fun s => (s.array.map ArrayElement.element, s.swaps, s.comparisons))
      = some ([1, 2, 3], 3, 5) := by
  rfl

/-- C6: bubble sort on `[5, 4, 3, 2, 1]` with a non-verbose container ends
with a trace whose last snapshot holds values `[1, 2, 3, 4, 5]` and a swaps
counter of 10. -/
theorem c6_bubble_sort_on_reversed_five :
    (bubble_sort (mkArray [5, 4, 3, 2, 1] none false)).map
        (fun s => s.history.getLast?.map
          (fun sn => (sn.array.map ArrayElement.element, sn.swaps)))
      = some (some ([1, 2, 3, 4, 5], 10)) := by
  rfl

/-- C4 (counterexample): on the length-3 container, `get(-1)` is a position
outside `[0, n)` yet succeeds (Python wrap-around indexing returns the last
element and counts an access), and a silent `swap(-1, 0)` succeeds as well —
refuting the claim that every position outside `[0, n)` fails. -/
theorem c4_negative_positions_wrap :
    (getitem (mkArray [10, 20, 30] none false) (-1)).1
        = some { element := 30, index := 2 } ∧
    (swap (mkArray [10, 20, 30] none false) (-1) 0 true).1 = some () ∧
    ((-1 : Int) < 0 ∨ (3 : Int) ≤ -1) := by
  exact ⟨by rfl, by rfl, Or.inl (by decide)⟩

/-- C8 (counterexample): on a non-verbose container a single successful
`get(0)` increments the accesses counter to 1 but appends no snapshot, so the
trace's final (and only) snapshot still records 0 accesses — the final
snapshot does not equal the true number of reads performed. -/
theorem c8_final_snapshot_undercounts_accesses :
    (run [Op.get 0] (mkArray [10, 20, 30] none false)).accesses = 1 ∧
    (run [Op.get 0] (mkArray [10, 20, 30] none false)).history.map
        Snapshot.accesses = [0] := by
  constructor <;> rfl

/-- C5: on a non-verbose container with valid distinct positions, a
non-silent `swap(i, j)` appends exactly three snapshots — two `insert`
(position-write) snapshots, for `i` then `j`, followed by one `swap(i, j)`
snapshot — and bumps accesses by 2 and swaps by 1; a silent swap appends one
`swap` snapshot and leaves accesses unchanged. -/
theorem c5_swap_snapshot_shape (s : ArrayState) (i j : Nat)
    (vi vj : ArrayElement)
    (hvj : s.array[j]? = some vj) (hvi : s.array[i]? = some vi)
    (hij : i ≠ j) (hv : s.verbose = false) :
    ((swap s (i : Int) (j : Int) false).1 = some () ∧
     (swap s (i : Int) (j : Int) false).2.history.length
        = s.history.length + 3 ∧
     ((swap s (i : Int) (j : Int) false).2.history.drop
        s.history.length).map Snapshot.action =
       [Action.insert (i : Int) vj, Action.insert (j : Int) vi,
        Action.swap (i : Int) (j : Int)] ∧
     (swap s (i : Int) (j : Int) false).2.accesses = s.accesses + 2 ∧
     (swap s (i : Int) (j : Int) false).2.swaps = s.swaps + 1) ∧
    ((swap s (i : Int) (j : Int) true).1 = some () ∧
     (swap s (i : Int) (j : Int) true).2.history.length
        = s.history.length + 1 ∧
     ((swap s (i : Int) (j : Int) true).2.history.drop
        s.history.length).map Snapshot.action =
       [Action.swap (i : Int) (j : Int)] ∧
     (swap s (i : Int) (j : Int) true).2.accesses = s.accesses ∧
     (swap s (i : Int) (j : Int) true).2.swaps = s.swaps + 1) := by
  rw [swap_valid s i j vi vj hvj hvi, swap_silent_valid s i j vi vj hvj hvi]
  have hdrop3 : ∀ l : List Snapshot,
      (s.history ++ l).drop s.history.length = l := fun l => List.drop_left _ _
  simp [hv, pushSnap, summary, hdrop3, List.drop_left]

/-- Concrete container used by the C5 witness. -/
def c5s : ArrayState := mkArray [7, 8, 9] none false

/-- C5 witness: the concrete container over `[7, 8, 9]` with `i = 0`,
`j = 2`. -/
theorem c5_witness :
    ((swap c5s (0 : Int) (2 : Int) false).1 = some () ∧
     (swap c5s (0 : Int) (2 : Int) false).2.history.length
        = c5s.history.length + 3 ∧
     ((swap c5s (0 : Int) (2 : Int) false).2.history.drop
        c5s.history.length).map Snapshot.action =
       [Action.insert (0 : Int) { element := 9, index := 2 },
        Action.insert (2 : Int) { element := 7, index := 0 },
        Action.swap (0 : Int) (2 : Int)] ∧
     (swap c5s (0 : Int) (2 : Int) false).2.accesses = c5s.accesses + 2 ∧
     (swap c5s (0 : Int) (2 : Int) false).2.swaps = c5s.swaps + 1) ∧
    ((swap c5s (0 : Int) (2 : Int) true).1 = some () ∧
     (swap c5s (0 : Int) (2 : Int) true).2.history.length
        = c5s.history.length + 1 ∧
     ((swap c5s (0 : Int) (2 : Int) true).2.history.drop
        c5s.history.length).map Snapshot.action =
       [Action.swap (0 : Int) (2 : Int)] ∧
     (swap c5s (0 : Int) (2 : Int) true).2.accesses = c5s.accesses ∧
     (swap c5s (0 : Int) (2 : Int) true).2.swaps = c5s.swaps + 1) :=
  c5_swap_snapshot_shape c5s 0 2 { element := 7, index := 0 }
    { element := 9, index := 2 } (by rfl) (by rfl) (by decide) (by rfl)

/-- C9: on any container, a non-silent `swap(i, j)` at valid positions
followed immediately by `swap(i, j)` again succeeds, restores the value
sequence (in particular the contents at positions `i` and `j`) to its
pre-swap state, and increments the swaps counter by exactly 2. -/
theorem c9_swap_involution (s : ArrayState) (i j : Nat)
    (vi vj : ArrayElement)
    (hvj : s.array[j]? = some vj) (hvi : s.array[i]? = some vi) :
    (swap s (i : Int) (j : Int) false).1 = some () ∧
    (swap (swap s (i : Int) (j : Int) false).2 (i : Int) (j : Int) false).1
        = some () ∧
    (swap (swap s (i : Int) (j : Int) false).2 (i : Int) (j : Int)
        false).2.array = s.array ∧
    (swap (swap s (i : Int) (j : Int) false).2 (i : Int) (j : Int)
        false).2.swaps = s.swaps + 2 := by
  obtain ⟨hj, hgj⟩ := List.getElem?_eq_some.1 hvj
  obtain ⟨hi, hgi⟩ := List.getElem?_eq_some.1 hvi
  obtain ⟨e1, ha1, hs1, _⟩ := swap_fields s i j vi vj hvj hvi
  by_cases hij : i = j
  · subst hij
    have hvivj : vi = vj := by rw [← hgi, hgj]
    subst hvivj
    have hb : (swap s (i : Int) (i : Int) false).2.array = s.array.set i vi := by
      rw [ha1, List.set_set]
    have h1i : (swap s (i : Int) (i : Int) false).2.array[i]? = some vi := by
      rw [hb]
      exact List.getElem?_set_self (by omega)
    obtain ⟨e2, ha2, hs2, _⟩ :=
      swap_fields (swap s (i : Int) (i : Int) false).2 i i vi vi h1i h1i
    refine ⟨e1, e2, ?_, ?_⟩
    · rw [ha2, hb, List.set_set, List.set_set,
        set_self_of_getElem s.array i vi hvi]
    · rw [hs2, hs1]
  · have hlen1 : (s.array.set i vj).length = s.array.length :=
      List.length_set s.array i vj
    have h1j : (swap s (i : Int) (j : Int) false).2.array[j]? = some vi := by
      rw [ha1]
      exact List.getElem?_set_self (by omega)
    have h1i : (swap s (i : Int) (j : Int) false).2.array[i]? = some vj := by
      rw [ha1, List.getElem?_set_ne (fun h => hij h.symm)]
      exact List.getElem?_set_self (by omega)
    obtain ⟨e2, ha2, hs2, _⟩ :=
      swap_fields (swap s (i : Int) (j : Int) false).2 i j vj vi h1j h1i
    refine ⟨e1, e2, ?_, ?_⟩
    · rw [ha2, ha1, List.set_comm _ _ _ hij, List.set_set,
        List.set_comm _ _ _ (fun h => hij h.symm)]
      rw [List.set_set, set_self_of_getElem s.array i vi hvi,
        set_self_of_getElem s.array j vj hvj]
    · rw [hs2, hs1]

/-- C9 witness: double swap of positions 0 and 1 on the container over
`[4, 5, 6]`. -/
theorem c9_witness :
    (swap (mkArray [4, 5, 6] none false) ((0 : Nat) : Int) ((1 : Nat) : Int)
        false).1 = some () ∧
    (swap (swap (mkArray [4, 5, 6] none false) ((0 : Nat) : Int)
        ((1 : Nat) : Int) false).2 ((0 : Nat) : Int) ((1 : Nat) : Int)
        false).1 = some () ∧
    (swap (swap (mkArray [4, 5, 6] none false) ((0 : Nat) : Int)
        ((1 : Nat) : Int) false).2 ((0 : Nat) : Int) ((1 : Nat) : Int)
        false).2.array = (mkArray [4, 5, 6] none false).array ∧
    (swap (swap (mkArray [4, 5, 6] none false) ((0 : Nat) : Int)
        ((1 : Nat) : Int) false).2 ((0 : Nat) : Int) ((1 : Nat) : Int)
        false).2.swaps = (mkArray [4, 5, 6] none false).swaps + 2 :=
  c9_swap_involution (mkArray [4, 5, 6] none false) 0 1
    { element := 4, index := 0 } { element := 5, index := 1 }
    (by rfl) (by rfl)

theorem getitem_invalid (s : ArrayState) (k : Int)
    (hk : k < -(s.array.length : Int) ∨ (s.array.length : Int) ≤ k) :
    getitem s k = (none, s) := by
  simp only [getitem]
  by_cases h0 : k < 0
  · simp only [if_pos h0]
    rw [dif_neg (by omega)]
  · simp only [if_neg h0]
    rw [dif_neg (by omega)]

theorem setitem_invalid (s : ArrayState) (k : Int) (v : ArrayElement)
    (hk : k < 0 ∨ (s.array.length : Int) ≤ k) :
    setitem s k v = (none, s) := by
  simp only [setitem]
  rw [if_pos hk]

theorem getitem_array (s : ArrayState) (k : Int) :
    (getitem s k).2.array = s.array := by
  by_cases hv : s.verbose = true <;>
    simp only [getitem, hv, if_true, ite_true, Bool.false_eq_true, if_false,
      ite_false] <;>
    (repeat' split) <;> rfl

/-- C4 (amended): only positions outside `[-n, n)` are invalid for reads:
`get` then fails with the invalid-index error, appends no snapshot, and
leaves the state untouched; `set` fails and changes nothing for every
position outside `[0, n)`; a swap (silent or not) on a non-verbose container
with an operand outside `[-n, n)` fails with the invalid-index error and
leaves the trace unchanged; and `get` at a negative position in `[-n, -1]`
succeeds by Python wrap-around indexing. -/
theorem c4_amended :
    (∀ (s : ArrayState) (k : Int),
        (k < -(s.array.length : Int) ∨ (s.array.length : Int) ≤ k) →
        getitem s k = (none, s)) ∧
    (∀ (s : ArrayState) (k : Int) (v : ArrayElement),
        (k < 0 ∨ (s.array.length : Int) ≤ k) → setitem s k v = (none, s)) ∧
    (∀ (s : ArrayState) (i j : Int) (sil : Bool),
        s.verbose = false →
        (i < -(s.array.length : Int) ∨ (s.array.length : Int) ≤ i ∨
         j < -(s.array.length : Int) ∨ (s.array.length : Int) ≤ j) →
        (swap s i j sil).1 = none ∧ (swap s i j sil).2.history = s.history) ∧
    (∀ (s : ArrayState) (k : Int),
        -(s.array.length : Int) ≤ k → k < 0 →
        (getitem s k).1.isSome = true) := by
  refine ⟨getitem_invalid, setitem_invalid, ?_, ?_⟩
  · intro s i j sil hv hbad
    cases sil with
    | true =>
      simp only [swap, if_true, ite_true]
      rw [dif_neg]
      · exact ⟨rfl, rfl⟩
      · by_cases hi0 : i < 0 <;> by_cases hj0 : j < 0 <;>
          simp only [if_pos, if_neg, hi0, hj0, ite_true, ite_false] <;> omega
    | false =>
      simp only [swap, Bool.false_eq_true, if_false, ite_false]
      by_cases hjbad : j < -(s.array.length : Int) ∨ (s.array.length : Int) ≤ j
      · rw [getitem_invalid s j hjbad]
        exact ⟨rfl, rfl⟩
      · have hibad : i < -(s.array.length : Int) ∨ (s.array.length : Int) ≤ i := by
          omega
        rcases h2 : getitem s j with ⟨o2, s1⟩
        have hh1 : s1.history = s.history := by
          have := (getitem_nv s j hv).1; rwa [h2] at this
        have ha1 : s1.array = s.array := by
          have := getitem_array s j; rwa [h2] at this
        rcases o2 with _ | vj
        · exact ⟨rfl, hh1⟩
        · dsimp only
          have hibad1 : i < -(s1.array.length : Int) ∨
              (s1.array.length : Int) ≤ i := by
            rw [ha1]; exact hibad
          rw [getitem_invalid s1 i hibad1]
          exact ⟨rfl, hh1⟩
  · intro s k hk1 hk2
    simp only [getitem, if_pos hk2]
    rw [dif_pos (by constructor <;> omega)]
    rfl

/-- C4 witness: out-of-range and wrap-around accesses on the length-2
container over `[1, 2]`. -/
theorem c4_witness :
    getitem (mkArray [1, 2] none false) 5 = (none, mkArray [1, 2] none false) ∧
    setitem (mkArray [1, 2] none false) (-1) { element := 9, index := 0 }
        = (none, mkArray [1, 2] none false) ∧
    ((swap (mkArray [1, 2] none false) 7 0 false).1 = none ∧
     (swap (mkArray [1, 2] none false) 7 0 false).2.history
        = (mkArray [1, 2] none false).history) ∧
    (getitem (mkArray [1, 2] none false) (-2)).1.isSome = true :=
  ⟨c4_amended.1 (mkArray [1, 2] none false) 5 (by decide),
   c4_amended.2.1 (mkArray [1, 2] none false) (-1) _ (by decide),
   c4_amended.2.2.1 (mkArray [1, 2] none false) 7 0 false rfl (by decide),
   c4_amended.2.2.2 (mkArray [1, 2] none false) (-2) (by decide) (by decide)⟩

/-- Length invariant: the live array and permutation, and those recorded in
every snapshot, have length `n`. -/
def LenOk (n : Nat) (s : ArrayState) : Prop :=
  s.array.length = n ∧ s.permutation.length = n ∧
  ∀ sn ∈ s.history, sn.array.length = n ∧ sn.permutation.length = n

theorem lenok_pushSnap {n : Nat} {s : ArrayState} (a : Action)
    (h : LenOk n s) : LenOk n (pushSnap s a) := by
  obtain ⟨h1, h2, h3⟩ := h
  refine ⟨h1, h2, ?_⟩
  intro sn hsn
  rcases List.mem_append.1 hsn with hold | hnew
  · exact h3 sn hold
  · rcases List.mem_singleton.1 hnew with rfl
    exact ⟨h1, h2⟩

theorem lenok_getitem {n : Nat} (s : ArrayState) (k : Int) (h : LenOk n s) :
    LenOk n (getitem s k).2 := by
  by_cases hv : s.verbose = true <;>
    simp only [getitem, hv, if_true, ite_true, Bool.false_eq_true, if_false,
      ite_false] <;>
    (repeat' split) <;>
    first
      | exact h
      | exact lenok_pushSnap _ h

theorem lenok_setitem {n : Nat} (s : ArrayState) (k : Int) (v : ArrayElement)
    (h : LenOk n s) : LenOk n (setitem s k v).2 := by
  simp only [setitem]
  split
  · exact h
  · apply lenok_pushSnap
    refine ⟨?_, ?_, h.2.2⟩
    · show (s.array.set k.toNat v).length = n
      rw [List.length_set]; exact h.1
    · show ((s.array.set k.toNat v).map ArrayElement.index).length = n
      rw [List.length_map, List.length_set]; exact h.1

theorem lenok_swap {n : Nat} (s : ArrayState) (i j : Int) (sil : Bool)
    (h : LenOk n s) : LenOk n (swap s i j sil).2 := by
  cases sil with
  | true =>
    simp only [swap, if_true, ite_true]
    (repeat' split) <;>
      first
        | exact h
        | exact lenok_pushSnap _
            ⟨by show ((s.array.set _ _).set _ _).length = n
                rw [List.length_set, List.length_set]
                exact h.1,
             h.2.1, h.2.2⟩
  | false =>
    simp only [swap, Bool.false_eq_true, if_false, ite_false]
    rcases h2 : getitem s j with ⟨o2, s1⟩
    have k1 : LenOk n s1 := by
      have := lenok_getitem s j h; rwa [h2] at this
    rcases o2 with _ | vj
    · exact k1
    · dsimp only
      rcases h3 : getitem s1 i with ⟨o3, s2⟩
      have k2 : LenOk n s2 := by
        have := lenok_getitem s1 i k1; rwa [h3] at this
      rcases o3 with _ | vi
      · exact k2
      · dsimp only
        rcases h4 : setitem s2 i vj with ⟨o4, s3⟩
        have k3 : LenOk n s3 := by
          have := lenok_setitem s2 i vj k2; rwa [h4] at this
        rcases o4 with _ | u4
        · exact k3
        · dsimp only
          rcases h5 : setitem s3 j vi with ⟨o5, s4⟩
          have k4 : LenOk n s4 := by
            have := lenok_setitem s3 j vi k3; rwa [h5] at this
          rcases o5 with _ | u5
          · exact k4
          · exact lenok_pushSnap _ k4

theorem lenok_compare {n : Nat} (s : ArrayState) (e1 e2 : ArrayElement)
    (h : LenOk n s) : LenOk n (compare s e1 e2) :=
  lenok_pushSnap _ h

theorem lenok_finish {n : Nat} (s : ArrayState) (h : LenOk n s) :
    LenOk n (finish s) := by
  exact pres_foldl (LenOk n) (finishStep s.array.length)
    (fun a b ha => lenok_pushSnap _ ha) (List.range s.array.length) s h

theorem lenok_stepOp {n : Nat} (o : Op) (s : ArrayState) (h : LenOk n s) :
    LenOk n (stepOp o s).2 := by
  cases o with
  | get k =>
    rcases hg : getitem s k with ⟨o1, s1⟩
    have := lenok_getitem s k h
    rw [hg] at this
    simpa [stepOp, hg] using this
  | set k v => exact lenok_setitem s k v h
  | swapOp i j sil => exact lenok_swap s i j sil h
  | compareOp e1 e2 => exact lenok_compare s e1 e2 h
  | finishOp => exact lenok_finish s h
  | setLabels l => exact ⟨h.1, h.2.1, h.2.2⟩

theorem lenok_run {n : Nat} (ops : List Op) (s : ArrayState) (h : LenOk n s) :
    LenOk n (run ops s) := by
  induction ops generalizing s with
  | nil => exact h
  | cons o os ih =>
    rcases hs : stepOp o s with ⟨r, s1⟩
    have h1 : LenOk n s1 := by
      have := lenok_stepOp o s h; rwa [hs] at this
    rcases r with _ | u
    · simpa [run, hs] using h1
    · simpa [run, hs] using ih s1 h1

theorem lenok_mkArray (vals : List Int)
    (labels : Option (List (Option String))) (verb : Bool) :
    LenOk vals.length (mkArray vals labels verb) := by
  refine ⟨?_, ?_, ?_⟩
  · show (vals.enum.map _).length = vals.length
    rw [List.length_map, List.enum_length]
  · show (List.range vals.length).length = vals.length
    rw [List.length_range]
  · intro sn hsn
    rcases List.mem_singleton.1 hsn with rfl
    constructor
    · show (vals.enum.map _).length = vals.length
      rw [List.length_map, List.enum_length]
    · show (List.range vals.length).length = vals.length
      rw [List.length_range]

/-- C2 (amended): the permutation always has length `n`, in the container and
in every recorded snapshot; a completed non-silent swap of valid positions
succeeds and leaves the permutation equal to the current identity sequence,
which is a rearrangement of the identities before the swap (bijectivity is
preserved across completed swaps).  (The counterexample shows the rest of the
original claim fails: the snapshot recorded after the first internal write of
a non-silent swap can repeat an identity, so it need not be a bijection, and
a silent swap does not recompute the permutation at all.) -/
theorem c2_amended :
    (∀ (vals : List Int) (labels : Option (List (Option String)))
        (verb : Bool) (ops : List Op),
        (run ops (mkArray vals labels verb)).permutation.length
            = vals.length ∧
        (run ops (mkArray vals labels verb)).array.length = vals.length ∧
        ∀ sn ∈ (run ops (mkArray vals labels verb)).history,
          sn.permutation.length = vals.length) ∧
    (∀ (s : ArrayState) (i j : Nat) (vi vj : ArrayElement),
        s.array[j]? = some vj → s.array[i]? = some vi →
        (swap s (i : Int) (j : Int) false).1 = some () ∧
        (swap s (i : Int) (j : Int) false).2.permutation
            = (swap s (i : Int) (j : Int) false).2.array.map
                ArrayElement.index ∧
        List.Perm
          ((swap s (i : Int) (j : Int) false).2.array.map ArrayElement.index)
          (s.array.map ArrayElement.index)) := by
  constructor
  · intro vals labels verb ops
    have h := lenok_run ops (mkArray vals labels verb)
      (lenok_mkArray vals labels verb)
    exact ⟨h.2.1, h.1, fun sn hsn => (h.2.2 sn hsn).2⟩
  · intro s i j vi vj hvj hvi
    obtain ⟨e1, ha, hs, hp⟩ := swap_fields s i j vi vj hvj hvi
    refine ⟨e1, ?_, ?_⟩
    · rw [hp, ha]
    · rw [ha]
      exact (set_set_swap_perm s.array i j vi vj hvj hvi).map ArrayElement.index

/-- C2 witness: a run consisting of one swap on `[3, 4]`, and the swap-level
clauses at positions 0 and 1. -/
theorem c2_amended_witness :
    ((run [Op.swapOp 0 1 false] (mkArray [3, 4] none false)).permutation.length
        = ([3, 4] : List Int).length ∧
     (run [Op.swapOp 0 1 false] (mkArray [3, 4] none false)).array.length
        = ([3, 4] : List Int).length ∧
     ∀ sn ∈ (run [Op.swapOp 0 1 false] (mkArray [3, 4] none false)).history,
       sn.permutation.length = ([3, 4] : List Int).length) ∧
    ((swap (mkArray [3, 4] none false) ((0 : Nat) : Int) ((1 : Nat) : Int)
        false).1 = some () ∧
     (swap (mkArray [3, 4] none false) ((0 : Nat) : Int) ((1 : Nat) : Int)
        false).2.permutation
        = (swap (mkArray [3, 4] none false) ((0 : Nat) : Int) ((1 : Nat) : Int)
            false).2.array.map ArrayElement.index ∧
     List.Perm
       ((swap (mkArray [3, 4] none false) ((0 : Nat) : Int) ((1 : Nat) : Int)
          false).2.array.map ArrayElement.index)
       ((mkArray [3, 4] none false).array.map ArrayElement.index)) :=
  ⟨c2_amended.1 [3, 4] none false [Op.swapOp 0 1 false],
   c2_amended.2 (mkArray [3, 4] none false) 0 1 { element := 3, index := 0 }
     { element := 4, index := 1 } (by rfl) (by rfl)⟩

/-- Pointwise ordering of the counters recorded in two snapshots. -/
def cLE (a b : Snapshot) : Prop :=
  a.accesses ≤ b.accesses ∧ a.comparisons ≤ b.comparisons ∧
  a.swaps ≤ b.swaps

/-- Counter invariant: the trace's recorded counters form a non-decreasing
chain; the last snapshot records the current comparison and swap totals, and
an access total that is exact in verbose mode and a lower bound otherwise. -/
def CtrInv (s : ArrayState) : Prop :=
  List.Chain' cLE s.history ∧
  ∃ sn, s.history.getLast? = some sn ∧
    sn.accesses ≤ s.accesses ∧ sn.comparisons = s.comparisons ∧
    sn.swaps = s.swaps ∧ (s.verbose = true → sn.accesses = s.accesses)

theorem ctrinv_push (s : ArrayState) (a : Action)
    (hch : List.Chain' cLE s.history)
    (hlast : ∀ sn, s.history.getLast? = some sn → cLE sn (summary s a)) :
    CtrInv (pushSnap s a) := by
  constructor
  · show List.Chain' cLE (s.history ++ [summary s a])
    refine List.chain'_append.2 ⟨hch, List.chain'_singleton _, ?_⟩
    intro x hx y hy
    simp only [List.head?_cons, Option.mem_def, Option.some.injEq] at hy
    subst hy
    exact hlast x hx
  · exact ⟨summary s a, List.getLast?_concat _, le_refl _, rfl, rfl,
      fun _ => rfl⟩

theorem ctrinv_push_ge (s t : ArrayState) (a : Action) (h : CtrInv s)
    (hh : t.history = s.history)
    (hacc : s.accesses ≤ t.accesses) (hcomp : s.comparisons ≤ t.comparisons)
    (hswap : s.swaps ≤ t.swaps) :
    CtrInv (pushSnap t a) := by
  obtain ⟨hch, sn, hl, ha, hc, hs, _⟩ := h
  apply ctrinv_push
  · rw [hh]; exact hch
  · intro x hx
    rw [hh, hl] at hx
    rcases Option.some.injEq _ _ ▸ hx with rfl
    exact ⟨le_trans ha hacc, le_trans (le_of_eq hc) hcomp,
      le_trans (le_of_eq hs) hswap⟩

theorem ctrinv_keep (s t : ArrayState) (h : CtrInv s)
    (hh : t.history = s.history) (hacc : s.accesses ≤ t.accesses)
    (hcomp : t.comparisons = s.comparisons) (hswap : t.swaps = s.swaps)
    (hverb : t.verbose = true → t.accesses = s.accesses ∧
      s.verbose = true) :
    CtrInv t := by
  obtain ⟨hch, sn, hl, ha, hc, hs, hv⟩ := h
  refine ⟨by rw [hh]; exact hch, sn, by rw [hh]; exact hl,
    le_trans ha hacc, by rw [hcomp]; exact hc, by rw [hswap]; exact hs, ?_⟩
  intro hvt
  obtain ⟨he, hsv⟩ := hverb hvt
  rw [he]
  exact hv hsv

theorem ctrinv_getitem (s : ArrayState) (k : Int) (h : CtrInv s) :
    CtrInv (getitem s k).2 := by
  by_cases hv : s.verbose = true <;>
    simp only [getitem, hv, if_true, ite_true, Bool.false_eq_true, if_false,
      ite_false] <;>
    (repeat' split) <;>
    first
      | exact h
      | exact ctrinv_push_ge s _ _ h rfl (Nat.le_succ _) (le_refl _)
          (le_refl _)
      | exact ctrinv_keep s _ h rfl (Nat.le_succ _) rfl rfl
          (fun hvt => absurd hvt (by simp))

theorem ctrinv_setitem (s : ArrayState) (k : Int) (v : ArrayElement)
    (h : CtrInv s) : CtrInv (setitem s k v).2 := by
  simp only [setitem]
  split
  · exact h
  · exact ctrinv_push_ge s _ _ h rfl (le_refl _) (le_refl _) (le_refl _)

theorem ctrinv_swap (s : ArrayState) (i j : Int) (sil : Bool)
    (h : CtrInv s) : CtrInv (swap s i j sil).2 := by
  cases sil with
  | true =>
    simp only [swap, if_true, ite_true]
    (repeat' split) <;>
      first
        | exact h
        | exact ctrinv_push_ge s _ _ h rfl (le_refl _) (le_refl _)
            (Nat.le_succ _)
  | false =>
    simp only [swap, Bool.false_eq_true, if_false, ite_false]
    rcases h2 : getitem s j with ⟨o2, s1⟩
    have k1 : CtrInv s1 := by
      have := ctrinv_getitem s j h; rwa [h2] at this
    rcases o2 with _ | vj
    · exact k1
    · dsimp only
      rcases h3 : getitem s1 i with ⟨o3, s2⟩
      have k2 : CtrInv s2 := by
        have := ctrinv_getitem s1 i k1; rwa [h3] at this
      rcases o3 with _ | vi
      · exact k2
      · dsimp only
        rcases h4 : setitem s2 i vj with ⟨o4, s3⟩
        have k3 : CtrInv s3 := by
          have := ctrinv_setitem s2 i vj k2; rwa [h4] at this
        rcases o4 with _ | u4
        · exact k3
        · dsimp only
          rcases h5 : setitem s3 j vi with ⟨o5, s4⟩
          have k4 : CtrInv s4 := by
            have := ctrinv_setitem s3 j vi k3; rwa [h5] at this
          rcases o5 with _ | u5
          · exact k4
          · exact ctrinv_push_ge s4 _ _ k4 rfl (le_refl _) (le_refl _)
              (Nat.le_succ _)

theorem ctrinv_compare (s : ArrayState) (e1 e2 : ArrayElement)
    (h : CtrInv s) : CtrInv (compare s e1 e2) :=
  ctrinv_push_ge s _ _ h rfl (le_refl _) (Nat.le_succ _) (le_refl _)

theorem ctrinv_finish (s : ArrayState) (h : CtrInv s) :
    CtrInv (finish s) := by
  exact pres_foldl CtrInv (finishStep s.array.length)
    (fun a b ha => ctrinv_push_ge a _ _ ha rfl (le_refl _) (le_refl _)
      (le_refl _))
    (List.range s.array.length) s h

theorem ctrinv_stepOp (o : Op) (s : ArrayState) (h : CtrInv s) :
    CtrInv (stepOp o s).2 := by
  cases o with
  | get k =>
    rcases hg : getitem s k with ⟨o1, s1⟩
    have := ctrinv_getitem s k h
    rw [hg] at this
    simpa [stepOp, hg] using this
  | set k v => exact ctrinv_setitem s k v h
  | swapOp i j sil => exact ctrinv_swap s i j sil h
  | compareOp e1 e2 => exact ctrinv_compare s e1 e2 h
  | finishOp => exact ctrinv_finish s h
  | setLabels l =>
    exact ctrinv_keep s _ h rfl (le_refl _) rfl rfl
      (fun hvt => ⟨rfl, hvt⟩)

theorem ctrinv_run (ops : List Op) (s : ArrayState) (h : CtrInv s) :
    CtrInv (run ops s) := by
  induction ops generalizing s with
  | nil => exact h
  | cons o os ih =>
    rcases hs : stepOp o s with ⟨r, s1⟩
    have h1 : CtrInv s1 := by
      have := ctrinv_stepOp o s h; rwa [hs] at this
    rcases r with _ | u
    · simpa [run, hs] using h1
    · simpa [run, hs] using ih s1 h1

theorem ctrinv_mkArray (vals : List Int)
    (labels : Option (List (Option String))) (verb : Bool) :
    CtrInv (mkArray vals labels verb) := by
  refine ⟨List.chain'_singleton _, _, rfl, le_refl _, rfl, rfl,
    fun _ => rfl⟩

/-- C8 (amended): across every trace produced from construction by any
operation sequence, the accesses, comparisons and swaps counters recorded in
successive snapshots are non-decreasing; the final snapshot's comparisons and
swaps equal the container's running totals (hence the true counts of
comparison invocations and successful swap calls, which always append a
snapshot immediately after incrementing); the final snapshot's accesses never
exceeds the running access total and equals it when the container is verbose.
(The counterexample shows exactness for accesses fails on a non-verbose
container: a plain read increments the counter without appending a
snapshot.) -/
theorem c8_amended (vals : List Int) (labels : Option (List (Option String)))
    (verb : Bool) (ops : List Op) :
    List.Chain' cLE (run ops (mkArray vals labels verb)).history ∧
    ∃ sn, (run ops (mkArray vals labels verb)).history.getLast? = some sn ∧
      sn.comparisons = (run ops (mkArray vals labels verb)).comparisons ∧
      sn.swaps = (run ops (mkArray vals labels verb)).swaps ∧
      sn.accesses ≤ (run ops (mkArray vals labels verb)).accesses ∧
      ((run ops (mkArray vals labels verb)).verbose = true →
        sn.accesses = (run ops (mkArray vals labels verb)).accesses) := by
  obtain ⟨hch, sn, hl, ha, hc, hs, hv⟩ :=
    ctrinv_run ops (mkArray vals labels verb) (ctrinv_mkArray vals labels verb)
  exact ⟨hch, sn, hl, hc, hs, ha, hv⟩

end ArrayPlotter
